import Mathlib

/-!
Verification development for the `freepik_clone` job-orchestration engine.

The definitions below are a shallow embedding of the TypeScript sources:
  * `src/src/app/page.tsx` — job data model, scheduler tick, job execution,
    prepare pipeline, persistence and rehydration of the job history;
  * `src/src/lib/image-models.ts` — `resolveAspectRatio`.

JavaScript values are modelled as follows: JS strings are `String`, JS numbers
that the program uses as integers (timestamps, counters, dimensions) are `Nat`
or `Int`, optional / possibly-`undefined` fields are `Option`, thrown
exceptions are `Except String`, and parsed JSON is the inductive `JsonValue`.
-/

namespace FreepikClone

/-- The five job states of `type JobStatus` (page.tsx line 28). -/
inductive JobStatus where
  | uploading
  | queued
  | running
  | success
  | error
deriving DecidableEq, Repr

/-- Modelled from the spec: `UnifiedPayload` is declared in `src/lib/models.ts`,
which is not among the provided sources (only its importers are). Section 3 of
the spec describes it as "model id, prompt, start/end reference URLs, and an
open set of optional tuning fields"; the tuning fields are taken from the
`basePayload` literal in `handleGenerate` (page.tsx lines 753–768). JS numbers
are modelled as `Int`. -/
structure UnifiedPayload where
  modelId : String
  prompt : String
  start_frame_url : String
  end_frame_url : Option String := none
  duration : Option String := none
  aspect_ratio : Option String := none
  resolution : Option String := none
  fps : Option Int := none
  generate_audio : Option Bool := none
  negative_prompt : Option String := none
  cfg_scale : Option Int := none
  prompt_optimizer : Option Bool := none
deriving DecidableEq, Repr

/-- The `Job` record (page.tsx lines 30–49).  The `raw` field (an opaque
provider response used only for display) is omitted; every other field is kept.
`Date.now()` timestamps are modelled as `Nat` milliseconds. -/
structure Job where
  id : String
  modelId : String
  prompt : String
  status : JobStatus
  createdAt : Nat
  attempts : Nat
  payload : Option UnifiedPayload := none
  videoUrl : Option String := none
  error : Option String := none
  preview : Option String := none
  events : List String := []
  storagePath : String
  localKey : Option String := none
  localUrl : Option String := none
  saving : Option Bool := none
  saved : Option Bool := none
  saveError : Option String := none
deriving DecidableEq, Repr

/-- `MAX_CONCURRENT_JOBS` (page.tsx line 51). -/
def MAX_CONCURRENT_JOBS : Nat := 2

/-- Modelled from the spec: `DEFAULT_MODEL_ID` comes from `src/lib/models.ts`,
which is not among the provided sources.  Its concrete value is irrelevant to
every claim; only its use as the fallback model id during rehydration matters. -/
def DEFAULT_MODEL_ID : String := "default-model"

/-- JS `Array.prototype.slice(-n)`: the last `n` elements (all of them when the
list is shorter than `n`). -/
def takeLast {α : Type} (n : Nat) (l : List α) : List α :=
  l.drop (l.length - n)

/-- JS `String.prototype.slice(-n)` (ASCII strings): the last `n` characters. -/
def takeLastStr (n : Nat) (s : String) : String :=
  String.mk (takeLast n s.data)

/-- Lower-case alphanumeric test, i.e. membership in the character class
`[a-z0-9]` of the regex in `sanitizeFileSegment`. -/
def isAlnumLower (c : Char) : Bool :=
  (decide ('a' ≤ c) && decide (c ≤ 'z')) || (decide ('0' ≤ c) && decide (c ≤ '9'))

/-- One pass of `.replace(/[^a-z0-9]+/g, "-")`: every maximal run of characters
outside `[a-z0-9]` becomes a single `'-'`.  The boolean flag records whether the
previous character was part of such a run. -/
def squashNonAlnum : Bool → List Char → List Char
  | _, [] => []
  | inRun, c :: rest =>
    if isAlnumLower c then c :: squashNonAlnum false rest
    else if inRun then squashNonAlnum true rest
    else '-' :: squashNonAlnum true rest

/-- `.replace(/^-+|-+$/g, "")`: strip leading and trailing dashes. -/
def trimDashes (l : List Char) : List Char :=
  ((l.dropWhile (· = '-')).reverse.dropWhile (· = '-')).reverse

/-- `sanitizeFileSegment` (page.tsx lines 143–149): lower-case, collapse runs of
non-alphanumerics to `'-'`, strip boundary dashes, keep the first 40 characters.
`toLowerCase` is modelled by `Char.toLower` (the sources only feed it ASCII). -/
def sanitizeFileSegment (value : String) : String :=
  String.mk ((trimDashes (squashNonAlnum false (value.data.map Char.toLower))).take 40)

/-- Decimal digit character: `0 ↦ '0'`, …, `9 ↦ '9'`. -/
def digitChar (d : Nat) : Char := Char.ofNat (48 + d)

/-- Modelled from the spec: `formatCompactTimestamp` lives in `src/lib/time.ts`,
which is not among the provided sources.  Section 4.3 describes it as "a
compact timestamp" that makes filenames distinct "at millisecond timestamp
resolution", so it is modelled as the decimal rendering of the
epoch-millisecond count — one distinct string per millisecond. -/
def formatCompactTimestamp (t : Nat) : String :=
  String.mk (((Nat.digits 10 t).reverse).map digitChar)

/-- `buildVideoFileName` (page.tsx lines 151–159), uncurried over the tuple
(pathHint = `storagePath`, `modelId`, `createdAt`, `id`).  The JS `x || y`
fallbacks on strings (empty string is falsy) become explicit `= ""` tests. -/
def buildVideoFileName (storagePath modelId : String) (createdAt : Nat) (id : String) : String :=
  let baseSegment :=
    let s := sanitizeFileSegment (if storagePath = "" then "downloads" else storagePath)
    if s = "" then "downloads" else s
  let modelSegment :=
    let s := sanitizeFileSegment modelId
    if s = "" then "model" else s
  let stamp := formatCompactTimestamp createdAt
  let idSegment :=
    let s := takeLastStr 6 (sanitizeFileSegment id)
    if s = "" then takeLastStr 6 id else s
  baseSegment ++ "-" ++ modelSegment ++ "-" ++ stamp ++ "-" ++ idSegment ++ ".mp4"

/-- The remainder taken by the JS `%` operator is truncated division remainder,
i.e. `Int.tmod`; its absolute value is smaller than the divisor's whenever the
divisor is nonzero (termination measure for the recursive `gcd` in
`resolveAspectRatio`). -/
theorem natAbs_tmod_lt (a b : Int) (hb : b ≠ 0) : (Int.tmod a b).natAbs < b.natAbs := by
  cases a with
  | ofNat m =>
    cases b with
    | ofNat n =>
      have hn : 0 < n := Nat.pos_of_ne_zero (by simpa using hb)
      simpa [Int.tmod] using Nat.mod_lt m hn
    | negSucc n =>
      simpa [Int.tmod] using Nat.mod_lt m (Nat.succ_pos n)
  | negSucc m =>
    cases b with
    | ofNat n =>
      have hn : 0 < n := Nat.pos_of_ne_zero (by simpa using hb)
      simpa [Int.tmod] using Nat.mod_lt (Nat.succ m) hn
    | negSucc n =>
      simpa [Int.tmod] using Nat.mod_lt (Nat.succ m) (Nat.succ_pos n)

/-- The local recursive `gcd` inside `resolveAspectRatio`
(image-models.ts lines 58–59): `b === 0 ? a : gcd(b, a % b)`, where JS `%` is
truncated remainder (`Int.tmod`). -/
def jsGcd (a b : Int) : Int :=
  if _h : b = 0 then a else jsGcd b (Int.tmod a b)
termination_by b.natAbs
decreasing_by exact natAbs_tmod_lt a b _h

/-- The `size` input of `resolveAspectRatio` (image-models.ts line 14): either a
named preset (an arbitrary runtime string; the six legal values are matched in
the function) or an explicit `{ width, height }` pair.  The sources only build
integral dimensions, so `Math.round` on them is the identity and JS numbers are
modelled as `Int`. -/
inductive ImageSize where
  | preset (name : String)
  | dims (width height : Int)
deriving DecidableEq, Repr

/-- `resolveAspectRatio` (image-models.ts lines 35–64).  `!size` on the preset
branch cannot fire (a `size` string reaching the `switch` is one of the matched
literals or falls to `default`); `!width || !height` is the JS zero test. -/
def resolveAspectRatio (size : Option ImageSize) : Option String :=
  match size with
  | none => none
  | some (.preset name) =>
    if name = "square_hd" then some "1:1"
    else if name = "square" then some "1:1"
    else if name = "portrait_4_3" then some "3:4"
    else if name = "portrait_16_9" then some "9:16"
    else if name = "landscape_4_3" then some "4:3"
    else if name = "landscape_16_9" then some "16:9"
    else none
  | some (.dims width height) =>
    if width = 0 ∨ height = 0 then none
    else
      let factor := jsGcd width height
      some (toString (Int.tdiv width factor) ++ ":" ++ toString (Int.tdiv height factor))

/-! ### Persisted job history: JSON model, rehydration, persistence -/

/-- Parsed JSON, the possible results of `JSON.parse` on the
`"video-job-history"` slot.  JSON numbers are modelled as `Int` (the program
only stores integral timestamps). -/
inductive JsonValue where
  | null
  | bool (b : Bool)
  | num (n : Int)
  | str (s : String)
  | arr (elems : List JsonValue)
  | obj (fields : List (String × JsonValue))
deriving Repr

mutual

/-- `JSON.stringify` of one value, used by `loadStoredJobs` to render non-string
event-log entries (page.tsx line 193).  String escaping is rendered literally;
no claim depends on the rendering, only on it being a string. -/
def jsonStringify : JsonValue → String
  | .null => "null"
  | .bool true => "true"
  | .bool false => "false"
  | .num n => toString n
  | .str s => "\"" ++ s ++ "\""
  | .arr elems => "[" ++ jsonStringifyList elems ++ "]"
  | .obj fields => "\x7b" ++ jsonStringifyFields fields ++ "\x7d"

/-- Comma-joined rendering of array elements. -/
def jsonStringifyList : List JsonValue → String
  | [] => ""
  | [v] => jsonStringify v
  | v :: rest => jsonStringify v ++ "," ++ jsonStringifyList rest

/-- Comma-joined rendering of object fields. -/
def jsonStringifyFields : List (String × JsonValue) → String
  | [] => ""
  | [(k, v)] => "\"" ++ k ++ "\":" ++ jsonStringify v
  | (k, v) :: rest => "\"" ++ k ++ "\":" ++ jsonStringify v ++ "," ++ jsonStringifyFields rest

end

/-- Property access `fields.key` on a parsed JSON object. -/
def lookupField (fields : List (String × JsonValue)) (key : String) : Option JsonValue :=
  (fields.find? fun f => f.1 == key).map (·.2)

/-- `typeof entry.key === "string" ? entry.key : undefined`. -/
def getStringField (fields : List (String × JsonValue)) (key : String) : Option String :=
  match lookupField fields key with
  | some (.str s) => some s
  | _ => none

/-- The body of the `.map` callback in `loadStoredJobs` (page.tsx lines
169–220): `none` models the callback returning `null`.  `genId` stands for the
`createId("job")` call (nondeterministic in JS, a parameter here) and `now` for
`Date.now()`.  The guard `if (!localUrl || !localKey) return null` (line 175)
tests JS falsiness of the two `string | undefined` values, so it rejects both
a missing/non-string field and an empty string; the `| _, _ => none` arm is
the missing half, the `= ""` test the empty-string half.  In JS an array entry
passes the `typeof entry === "object"` check but has none of the looked-up
string properties, so matching only `.obj` is extensionally faithful. -/
def storedEntryToJob (genId : String) (now : Nat) (entry : JsonValue) : Option Job :=
  match entry with
  | .obj fields =>
    let localUrl := getStringField fields "localUrl"
    let localKey := getStringField fields "localKey"
    match localUrl, localKey with
    | some u, some k =>
      if u = "" ∨ k = "" then none
      else some
        { id := (getStringField fields "id").getD genId
          modelId := (getStringField fields "modelId").getD DEFAULT_MODEL_ID
          prompt := (getStringField fields "prompt").getD ""
          status := .success
          createdAt :=
            match lookupField fields "createdAt" with
            | some (.num n) => n.toNat
            | _ => now
          attempts := 1
          payload := none
          videoUrl := some u
          error := none
          preview := getStringField fields "preview"
          events :=
            match lookupField fields "events" with
            | some (.arr evs) =>
              takeLast 10 (evs.map fun e =>
                match e with
                | .str s => s
                | other => jsonStringify other)
            | _ => []
          storagePath := (getStringField fields "storagePath").getD "downloads"
          localKey := some k
          localUrl := some u
          saving := some false
          saved := some true
          saveError := none }
    | _, _ => none
  | _ => none

/-- The `data.map(...).filter(Boolean)` pipeline of `loadStoredJobs`, with the
entry index threaded through so each entry gets its own generated fallback id
(`genId i` models the i-th `createId("job")` call). -/
def loadStoredEntries (genId : Nat → String) (now : Nat) : Nat → List JsonValue → List Job
  | _, [] => []
  | i, e :: rest =>
    match storedEntryToJob (genId i) now e with
    | some j => j :: loadStoredEntries genId now (i + 1) rest
    | none => loadStoredEntries genId now (i + 1) rest

/-- `loadStoredJobs` (page.tsx lines 161–225).  The input is the parsed content
of the `"video-job-history"` storage slot: `none` models a missing slot or a
`JSON.parse` exception (both produce `[]` — the function never throws); a
non-array value is rejected by the `Array.isArray` guard. -/
def loadStoredJobs (genId : Nat → String) (now : Nat) (raw : Option JsonValue) : List Job :=
  match raw with
  | none => []
  | some (.arr entries) => loadStoredEntries genId now 0 entries
  | some _ => []

/-- One element of the array written by `persistStoredJobs`
(page.tsx lines 237–247). -/
structure StoredJobRecord where
  id : String
  modelId : String
  prompt : String
  createdAt : Nat
  preview : Option String
  events : List String
  localKey : Option String
  localUrl : Option String
  storagePath : String
deriving DecidableEq, Repr

/-- JS truthiness of a `string | undefined` value: `undefined` and `""` are
falsy. -/
def jsTruthyStr : Option String → Bool
  | none => false
  | some s => s != ""

/-- The record literal inside `persistStoredJobs` (`completed.map(job => ...)`,
page.tsx lines 237–247). -/
def toStoredRecord (job : Job) : StoredJobRecord :=
  { id := job.id
    modelId := job.modelId
    prompt := job.prompt
    createdAt := job.createdAt
    preview := job.preview
    events := takeLast 10 job.events
    localKey := job.localKey
    localUrl := job.localUrl
    storagePath := job.storagePath }

/-- `persistStoredJobs` (page.tsx lines 227–255): filter the terminal-success
jobs with truthy `localKey` and `localUrl`; `none` models
`localStorage.removeItem` (empty index), `some records` models
`localStorage.setItem` with the serialized array. -/
def persistStoredJobs (jobs : List Job) : Option (List StoredJobRecord) :=
  let completed := jobs.filter fun job =>
    job.status == .success && jsTruthyStr job.localKey && jsTruthyStr job.localUrl
  if completed.isEmpty then none else some (completed.map toStoredRecord)

/-! ### Scheduler state, job mutations, prepare pipeline -/

/-- `notifyJobUpdate` (page.tsx lines 543–558): functional update of the job
with the given id.  The `Partial<Job>` patch object is modelled as a function
producing the merged job (the closure form `data(job)` of the source). -/
def notifyJobUpdate (jobs : List Job) (jobId : String) (patch : Job → Job) : List Job :=
  jobs.map fun job => if job.id = jobId then patch job else job

/-- `enqueueJob` (page.tsx lines 675–690): `uploading → queued`, attaching the
resolved payload. -/
def enqueueJob (jobs : List Job) (jobId : String) (payload : UnifiedPayload) : List Job :=
  jobs.map fun job =>
    if job.id = jobId then { job with status := .queued, payload := some payload } else job

/-- `handleRetry` (page.tsx lines 800–803): a no-op without a payload,
otherwise reset to `queued` and clear the error message. -/
def handleRetry (jobs : List Job) (job : Job) : List Job :=
  match job.payload with
  | none => jobs
  | some _ => notifyJobUpdate jobs job.id fun j => { j with status := .queued, error := none }

/-- The scheduler's shared state: the job list (`jobs` React state, newest
first) and the mutable running-id set `runningJobs.current`, modelled as a
duplicate-free list of ids. -/
structure SchedState where
  jobs : List Job
  running : List String
deriving Repr

/-- The selection made by the scheduler tick effect (page.tsx lines 659–673):
`none` when the running set is at or above `MAX_CONCURRENT_JOBS`, otherwise the
first `queued` job whose id is not already running. -/
def schedulerTick (s : SchedState) : Option Job :=
  if MAX_CONCURRENT_JOBS ≤ s.running.length then none
  else s.jobs.find? fun job => job.status == .queued && !(s.running.contains job.id)

/-- The patch applied at execution start (page.tsx line 611):
`{ status: "running", attempts: job.attempts + 1 }`, where `job` is the
captured job selected by the tick. -/
def startPatch (job : Job) (j : Job) : Job :=
  { j with status := .running, attempts := job.attempts + 1 }

/-- The patch applied when `runFal` resolves (page.tsx lines 634–643). -/
def successPatch (fileName url : String) (j : Job) : Job :=
  { j with
    status := .success
    videoUrl := some url
    saving := some true
    saved := some false
    localKey := some fileName
    localUrl := none
    saveError := none }

/-- The patch applied when execution fails (page.tsx lines 647–651). -/
def errorPatch (msg : String) (j : Job) : Job :=
  { j with status := .error, error := some msg }

/-- `encodeURIComponent` over the characters of a string: unreserved
characters are kept, every other character is percent-encoded byte by byte
(UTF-8). -/
def encodeURIComponent (s : String) : String :=
  let unreserved := fun (c : Char) =>
    isAlnumLower c ||
    (decide ('A' ≤ c) && decide (c ≤ 'Z')) ||
    c == '-' || c == '_' || c == '.' || c == '!' || c == '~' || c == '*' ||
    c == '\x27' || c == '(' || c == ')'
  let hexDigit := fun (n : Nat) => if n < 10 then digitChar n else Char.ofNat (55 + n)
  let encodeChar := fun (c : Char) =>
    if unreserved c then [c]
    else (String.toUTF8 (String.mk [c])).toList.foldr
      (fun b acc => '%' :: hexDigit (b.toNat / 16) :: hexDigit (b.toNat % 16) :: acc) []
  String.mk (s.data.foldr (fun c acc => encodeChar c ++ acc) [])

/-- The local URL built for a persisted artifact (page.tsx line 583). -/
def localAssetUrl (fileName : String) : String :=
  "/assets/" ++ encodeURIComponent fileName

/-- `persistVideoAsset` (page.tsx lines 560–604) as a state transformer over
the job list.  The asynchronous fetch/store chain is summarized by `outcome`:
`.ok ()` when both the artifact download and the `/api/assets` write succeed
(the try branch reaches line 584), `.error msg` when any step throws or
returns a non-ok response (the catch branch, with `msg` the derived message). -/
def persistVideoAsset (jobs : List Job) (jobId fileName : String)
    (outcome : Except String Unit) : List Job :=
  match outcome with
  | .ok _ =>
    notifyJobUpdate jobs jobId fun j =>
      { j with
        saving := some false
        saved := some true
        localKey := some fileName
        localUrl := some (localAssetUrl fileName)
        videoUrl := some (localAssetUrl fileName)
        saveError := none }
  | .error msg =>
    notifyJobUpdate jobs jobId fun j =>
      { j with saving := some false, saved := some false, saveError := some msg }

/-! ### Upload / prepare pipeline -/

/-- The tri-state capability flags of a `ModelSpec`
(`boolean | "unstable" | "unspecified" | undefined` in page.tsx line 1356). -/
inductive SupportFlag where
  | flag (b : Bool)
  | unstable
  | unspecified
  | undef
deriving DecidableEq, Repr

/-- `isSupportEnabled` (page.tsx lines 1355–1359): only the literal `true`
enables a capability. -/
def isSupportEnabled : SupportFlag → Bool
  | .flag b => b
  | _ => false

/-- The capability flags consumed by the prepare pipeline. -/
structure ModelSupports where
  endFrame : SupportFlag := .undef
  audio : SupportFlag := .undef
deriving DecidableEq, Repr

/-- Modelled from the spec: `ModelSpec` is declared in `src/lib/models.ts`,
which is not among the provided sources.  Only the pieces the prepare pipeline
reads are kept: the model id and the capability flags (spec section 3). -/
structure ModelSpec where
  id : String
  supports : ModelSupports
deriving DecidableEq, Repr

/-- `UploadDataRecord`: the optional nested `data` object of an upload
response (page.tsx lines 103–107). -/
structure UploadDataRecord where
  url : Option String := none
  signed_url : Option String := none
  signedUrl : Option String := none
deriving DecidableEq, Repr

/-- `UploadResponseRecord` (page.tsx lines 99–108). -/
structure UploadResponseRecord where
  url : Option String := none
  signedUrl : Option String := none
  signed_url : Option String := none
  data : Option UploadDataRecord := none
deriving DecidableEq, Repr

/-- The runtime shapes an upload result can take (`unknown` in the source):
a string, a response record, a nullish value, or anything else (numbers,
booleans, …). -/
inductive UploadResult where
  | str (s : String)
  | record (r : UploadResponseRecord)
  | nullish
  | other
deriving DecidableEq, Repr

/-- `extractUploadUrl` (page.tsx lines 110–127).  `!uploadResult` rejects
nullish values and the empty string; the record branch is the
nullish-coalescing chain `url ?? signedUrl ?? signed_url ?? data?.url ??
data?.signed_url ?? data?.signedUrl` (note `??` lets `""` through — the
callers re-check falsiness); any other shape yields `undefined`. -/
def extractUploadUrl : UploadResult → Option String
  | .nullish => none
  | .str s => if s.isEmpty then none else some s
  | .record r =>
    r.url <|> r.signedUrl <|> r.signed_url <|>
      (r.data.bind (·.url)) <|> (r.data.bind (·.signed_url)) <|> (r.data.bind (·.signedUrl))
  | .other => none

/-- `!url` on a `string | undefined`: missing or empty. -/
def uploadUrlMissing : Option String → Bool
  | none => true
  | some s => s.isEmpty

/-- Whether the end-reference upload is attempted
(`end && isSupportEnabled(model.supports.endFrame)`, page.tsx line 712). -/
def endFrameAttempted (model : ModelSpec) (endUpload : Option (Except String UploadResult)) : Bool :=
  endUpload.isSome && isSupportEnabled model.supports.endFrame

/-- `prepareJobPayload` (page.tsx lines 692–724) as a pure function of the two
upload outcomes.  `startUpload` is the result of `client.storage.upload(start)`
(`.error msg` when the upload rejects — the exception propagates to
`handleGenerate`'s catch); `endUpload` is `some outcome` when an end file was
supplied, `none` when not.  The returned `.ok payload` is the payload handed to
`enqueueJob`; `.error msg` is the exception reaching the catch block. -/
def prepareJobPayload (model : ModelSpec) (basePayload : UnifiedPayload)
    (startUpload : Except String UploadResult)
    (endUpload : Option (Except String UploadResult)) : Except String UnifiedPayload :=
  match startUpload with
  | .error msg => .error msg
  | .ok startRes =>
    match extractUploadUrl startRes with
    | none => .error "Unable to upload start frame."
    | some su =>
      if su.isEmpty then .error "Unable to upload start frame."
      else
        let payload := { basePayload with start_frame_url := su }
        match endUpload, isSupportEnabled model.supports.endFrame with
        | some (.error msg), true => .error msg
        | some (.ok endRes), true =>
          match extractUploadUrl endRes with
          | none => .error "Unable to upload end frame."
          | some eu =>
            if eu.isEmpty then .error "Unable to upload end frame."
            else .ok { payload with end_frame_url := some eu }
        | _, _ => .ok payload

/-- The `try { await prepareJobPayload(...) } catch` wrapper of
`handleGenerate` (page.tsx lines 788–797) together with the final `enqueueJob`
call of `prepareJobPayload`: on success the job is enqueued with the completed
payload, on failure it is marked `error` with the thrown message. -/
def runPrepare (jobs : List Job) (jobId : String) (model : ModelSpec)
    (basePayload : UnifiedPayload) (startUpload : Except String UploadResult)
    (endUpload : Option (Except String UploadResult)) : List Job :=
  match prepareJobPayload model basePayload startUpload endUpload with
  | .ok payload => enqueueJob jobs jobId payload
  | .error msg => notifyJobUpdate jobs jobId (errorPatch msg)

/-! ### Small-step semantics of the scheduler -/

/-- The observable operations that mutate the scheduler state. -/
inductive SchedEvent where
  | submit (job : Job)
  | enqueue (jobId : String) (payload : UnifiedPayload)
  | tickStart (jobId : String)
  | finishOk (jobId fileName url : String)
  | finishErr (jobId msg : String)
  | release (jobId : String)
  | retry (jobId : String)
  | persistOk (jobId fileName : String)
  | persistErr (jobId fileName msg : String)
deriving DecidableEq, Repr

/-- One step of the orchestration engine, mirroring the handlers in page.tsx:

* `submit`: `handleGenerate` prepends a fresh `uploading` job with attempt
  counter 0 and no payload (lines 770–786); ids produced by `createId` are
  unique (spec section 3: "id is immutable and unique"), expressed by the
  freshness hypothesis.
* `enqueue`: the `enqueueJob` callback (lines 675–690).
* `tickStart`: the tick effect selected a job (lines 659–673) and
  `startJobExecution` (lines 606–611) found its payload present, added its id
  to `runningJobs.current` and applied `startPatch`.
* `finishOk` / `finishErr`: `runFal` resolved or rejected for a running job
  (lines 613–651); the id stays in the running set until `release`.
* `release`: the `finally` block (line 653) removes the id — by then the
  try/catch has already set the job's status to `success` or `error`, which is
  the stated hypothesis.
* `retry`: the retry button (rendered only for an `error`-status job with a
  payload, line 1331) invoked `handleRetry` (lines 800–803).
* `persistOk` / `persistErr`: `persistVideoAsset` resolved (lines 560–604). -/
inductive Step : SchedState → SchedEvent → SchedState → Prop where
  | submit (s : SchedState) (job : Job)
      (hstatus : job.status = .uploading) (hatt : job.attempts = 0)
      (hpay : job.payload = none)
      (hfresh : ∀ j ∈ s.jobs, j.id ≠ job.id) :
      Step s (.submit job) ⟨job :: s.jobs, s.running⟩
  | enqueue (s : SchedState) (jobId : String) (payload : UnifiedPayload) :
      Step s (.enqueue jobId payload) ⟨enqueueJob s.jobs jobId payload, s.running⟩
  | tickStart (s : SchedState) (job : Job)
      (hsel : schedulerTick s = some job) (hpay : job.payload.isSome) :
      Step s (.tickStart job.id)
        ⟨notifyJobUpdate s.jobs job.id (startPatch job), job.id :: s.running⟩
  | finishOk (s : SchedState) (jobId fileName url : String)
      (hrun : jobId ∈ s.running) :
      Step s (.finishOk jobId fileName url)
        ⟨notifyJobUpdate s.jobs jobId (successPatch fileName url), s.running⟩
  | finishErr (s : SchedState) (jobId msg : String)
      (hrun : jobId ∈ s.running) :
      Step s (.finishErr jobId msg)
        ⟨notifyJobUpdate s.jobs jobId (errorPatch msg), s.running⟩
  | release (s : SchedState) (jobId : String)
      (hdone : ∀ j ∈ s.jobs, j.id = jobId → j.status ≠ .running) :
      Step s (.release jobId) ⟨s.jobs, s.running.erase jobId⟩
  | retry (s : SchedState) (job : Job)
      (hmem : job ∈ s.jobs) (hstatus : job.status = .error) (hpay : job.payload.isSome) :
      Step s (.retry job.id) ⟨handleRetry s.jobs job, s.running⟩
  | persistOk (s : SchedState) (jobId fileName : String) :
      Step s (.persistOk jobId fileName)
        ⟨persistVideoAsset s.jobs jobId fileName (.ok ()), s.running⟩
  | persistErr (s : SchedState) (jobId fileName msg : String) :
      Step s (.persistErr jobId fileName msg)
        ⟨persistVideoAsset s.jobs jobId fileName (.error msg), s.running⟩

/-- Reachable scheduler states: the mount effect initializes the job list with
the rehydrated history (every job produced by `loadStoredJobs` has status
`success`) and an empty running set, then steps evolve it. -/
inductive Reachable : SchedState → Prop where
  | init (jobs : List Job)
      (hsucc : ∀ j ∈ jobs, j.status = .success)
      (hids : (jobs.map Job.id).Nodup) :
      Reachable ⟨jobs, []⟩
  | step (s : SchedState) (e : SchedEvent) (s' : SchedState) :
      Reachable s → Step s e s' → Reachable s'

/-- The scheduler invariant: the running-id set is duplicate-free and bounded
by `MAX_CONCURRENT_JOBS`, every `running`-status job is tracked in it, and job
ids are pairwise distinct. -/
structure SchedInv (s : SchedState) : Prop where
  nodupRunning : s.running.Nodup
  runningBound : s.running.length ≤ MAX_CONCURRENT_JOBS
  runningTracked : ∀ j ∈ s.jobs, j.status = .running → j.id ∈ s.running
  nodupIds : (s.jobs.map Job.id).Nodup

theorem notifyJobUpdate_map_id (jobs : List Job) (jobId : String) (patch : Job → Job)
    (hid : ∀ j, (patch j).id = j.id) :
    (notifyJobUpdate jobs jobId patch).map Job.id = jobs.map Job.id := by
  simp only [notifyJobUpdate, List.map_map]
  apply List.map_congr_left
  intro j _
  by_cases h : j.id = jobId <;> simp [h, hid]


theorem mem_notifyJobUpdate {jobs : List Job} {jobId : String} {patch : Job → Job} {j' : Job}
    (h : j' ∈ notifyJobUpdate jobs jobId patch) :
    ∃ j ∈ jobs, (if j.id = jobId then patch j else j) = j' := by
  simpa [notifyJobUpdate] using h

/-- Tracking of `running`-status jobs survives a `notifyJobUpdate` whose patch
preserves ids and does not introduce the `running` status. -/
theorem runningTracked_patch {jobs : List Job} {running : List String} {jobId : String}
    {patch : Job → Job}
    (htr : ∀ j ∈ jobs, j.status = .running → j.id ∈ running)
    (hid : ∀ j, (patch j).id = j.id)
    (hst : ∀ j ∈ jobs, (patch j).status = .running → j.status = .running) :
    ∀ j' ∈ notifyJobUpdate jobs jobId patch, j'.status = .running → j'.id ∈ running := by
  intro j' hj' hrun
  rcases mem_notifyJobUpdate hj' with ⟨j, hj, hcond⟩
  subst hcond
  by_cases h : j.id = jobId
  · rw [if_pos h] at hrun ⊢
    rw [hid]
    exact htr j hj (hst j hj hrun)
  · rw [if_neg h] at hrun ⊢
    exact htr j hj hrun

theorem enqueueJob_eq_notify (jobs : List Job) (jobId : String) (payload : UnifiedPayload) :
    enqueueJob jobs jobId payload =
      notifyJobUpdate jobs jobId
        (fun job => { job with status := .queued, payload := some payload }) := rfl

theorem sched_inv_step {s : SchedState} {e : SchedEvent} {s' : SchedState}
    (hinv : SchedInv s) (hstep : Step s e s') : SchedInv s' := by
  cases hstep with
  | submit job hstatus hatt hpay hfresh =>
    refine ⟨hinv.nodupRunning, hinv.runningBound, ?_, ?_⟩
    · intro j hj hrun
      rcases List.mem_cons.mp hj with h | h
      · subst h; rw [hstatus] at hrun; cases hrun
      · exact hinv.runningTracked j h hrun
    · refine List.nodup_cons.mpr ⟨?_, hinv.nodupIds⟩
      intro hmem
      rcases List.mem_map.mp hmem with ⟨j, hj, hid⟩
      exact hfresh j hj hid
  | enqueue jobId payload =>
    refine ⟨hinv.nodupRunning, hinv.runningBound, ?_, ?_⟩
    · rw [enqueueJob_eq_notify]
      exact runningTracked_patch hinv.runningTracked (fun j => rfl)
        (fun j hj hr => nomatch hr)
    · rw [enqueueJob_eq_notify, notifyJobUpdate_map_id]
      exact hinv.nodupIds
      intro j
      rfl
  | tickStart job hsel hpay =>
    have hfound : s.jobs.find? (fun j => j.status == .queued && !(s.running.contains j.id))
        = some job := by
      by_cases hb : MAX_CONCURRENT_JOBS ≤ s.running.length
      · simp [schedulerTick, hb] at hsel
      · simpa [schedulerTick, hb] using hsel
    have hprop := List.find?_some hfound
    have hnotrun : job.id ∉ s.running := by
      have := ((Bool.and_eq_true _ _).mp hprop).2
      simpa using this
    have hlt : s.running.length < MAX_CONCURRENT_JOBS := by
      by_contra hge
      simp [schedulerTick, Nat.le_of_not_lt hge] at hsel
    refine ⟨List.nodup_cons.mpr ⟨hnotrun, hinv.nodupRunning⟩, hlt, ?_, ?_⟩
    · intro j' hj' hrun
      rcases mem_notifyJobUpdate hj' with ⟨j, hj, hcond⟩
      subst hcond
      by_cases h : j.id = job.id
      · rw [if_pos h]
        rw [show (startPatch job j).id = j.id from rfl, h]
        exact List.mem_cons_self _ _
      · rw [if_neg h] at hrun ⊢
        exact List.mem_cons_of_mem _ (hinv.runningTracked j hj hrun)
    · rw [notifyJobUpdate_map_id]
      exact hinv.nodupIds
      intro j
      rfl
  | finishOk jobId fileName url hrun =>
    refine ⟨hinv.nodupRunning, hinv.runningBound, ?_, ?_⟩
    · exact runningTracked_patch hinv.runningTracked (fun j => rfl)
        (fun j hj hr => nomatch hr)
    · rw [notifyJobUpdate_map_id]
      exact hinv.nodupIds
      intro j
      rfl
  | finishErr jobId msg hrun =>
    refine ⟨hinv.nodupRunning, hinv.runningBound, ?_, ?_⟩
    · exact runningTracked_patch hinv.runningTracked (fun j => rfl)
        (fun j hj hr => nomatch hr)
    · rw [notifyJobUpdate_map_id]
      exact hinv.nodupIds
      intro j
      rfl
  | release jobId hdone =>
    refine ⟨hinv.nodupRunning.erase jobId,
      Nat.le_trans (List.Sublist.length_le (List.erase_sublist jobId s.running))
        hinv.runningBound, ?_, hinv.nodupIds⟩
    intro j hj hrun
    have hne : j.id ≠ jobId := fun heq => hdone j hj heq hrun
    exact (List.mem_erase_of_ne hne).mpr (hinv.runningTracked j hj hrun)
  | retry job hmem hstatus hpay =>
    rcases Option.isSome_iff_exists.mp hpay with ⟨p, hp⟩
    have hhr : handleRetry s.jobs job =
        notifyJobUpdate s.jobs job.id (fun j => { j with status := .queued, error := none }) := by
      simp [handleRetry, hp]
    refine ⟨hinv.nodupRunning, hinv.runningBound, ?_, ?_⟩
    · rw [hhr]
      exact runningTracked_patch hinv.runningTracked (fun j => rfl)
        (fun j hj hr => nomatch hr)
    · rw [hhr, notifyJobUpdate_map_id]
      exact hinv.nodupIds
      intro j
      rfl
  | persistOk jobId fileName =>
    refine ⟨hinv.nodupRunning, hinv.runningBound, ?_, ?_⟩
    · exact runningTracked_patch hinv.runningTracked (fun j => rfl)
        (fun j hj hr => hr)
    · rw [show persistVideoAsset s.jobs jobId fileName (Except.ok ()) =
          notifyJobUpdate s.jobs jobId _ from rfl, notifyJobUpdate_map_id]
      exact hinv.nodupIds
      intro j
      rfl
  | persistErr jobId fileName msg =>
    refine ⟨hinv.nodupRunning, hinv.runningBound, ?_, ?_⟩
    · exact runningTracked_patch hinv.runningTracked (fun j => rfl)
        (fun j hj hr => hr)
    · rw [show persistVideoAsset s.jobs jobId fileName (Except.error msg) =
          notifyJobUpdate s.jobs jobId _ from rfl, notifyJobUpdate_map_id]
      exact hinv.nodupIds
      intro j
      rfl

theorem sched_inv_reachable {s : SchedState} (h : Reachable s) : SchedInv s := by
  induction h with
  | init jobs hsucc hids =>
    refine ⟨List.nodup_nil, by simp [MAX_CONCURRENT_JOBS], ?_, hids⟩
    intro j hj hrun
    rw [hsucc j hj] at hrun
    cases hrun
  | step s e s' _ hstep ih => exact sched_inv_step ih hstep

/-- The jobs displayed as `running` inject, via their (pairwise distinct) ids,
into the duplicate-free running-id set, so they are no more numerous than it. -/
theorem runningCount_le_running_length {s : SchedState} (hinv : SchedInv s) :
    (s.jobs.filter fun j => j.status == .running).length ≤ s.running.length := by
  set l := s.jobs.filter fun j => j.status == .running with hl
  have hsub : l.map Job.id ⊆ s.running := by
    intro x hx
    rcases List.mem_map.mp hx with ⟨j, hj, hid⟩
    have hmem := List.mem_of_mem_filter hj
    have hrun : j.status = .running := by
      have := List.of_mem_filter hj
      simpa using this
    rw [← hid]
    exact hinv.runningTracked j hmem hrun
  have hnodup : (l.map Job.id).Nodup := by
    have hsl := (List.filter_sublist (l := s.jobs)
      (p := fun j => j.status == JobStatus.running)).map Job.id
    exact hinv.nodupIds.sublist hsl
  have hlen := (hnodup.subperm hsub).length_le
  simpa using hlen

/-- In a job list with pairwise-distinct ids, a member is determined by its
id. -/
theorem eq_of_mem_of_id_eq {jobs : List Job} (hids : (jobs.map Job.id).Nodup)
    {a b : Job} (ha : a ∈ jobs) (hb : b ∈ jobs) (h : a.id = b.id) : a = b := by
  induction jobs with
  | nil => cases ha
  | cons c l ih =>
    have hids' : (c.id :: l.map Job.id).Nodup := by simpa using hids
    have hnd := List.nodup_cons.mp hids'
    rcases List.mem_cons.mp ha with ha1 | ha1 <;> rcases List.mem_cons.mp hb with hb1 | hb1
    · rw [ha1, hb1]
    · exfalso
      apply hnd.1
      rw [ha1] at h
      rw [h]
      exact List.mem_map.mpr ⟨b, hb1, rfl⟩
    · exfalso
      apply hnd.1
      rw [hb1] at h
      rw [← h]
      exact List.mem_map.mpr ⟨a, ha1, rfl⟩
    · exact ih hnd.2 ha1 hb1

/-- An id-preserving, attempts-preserving patch leaves every job's attempt
counter unchanged. -/
theorem attempts_notify {jobs : List Job} {jobId : String} {patch : Job → Job}
    (hatt : ∀ a, (patch a).attempts = a.attempts)
    (hpid : ∀ a, (patch a).id = a.id)
    (hids : (jobs.map Job.id).Nodup)
    {j j' : Job} (hj : j ∈ jobs) (hj' : j' ∈ notifyJobUpdate jobs jobId patch)
    (hid : j'.id = j.id) : j'.attempts = j.attempts := by
  rcases mem_notifyJobUpdate hj' with ⟨a, ha, hcond⟩
  subst hcond
  by_cases h : a.id = jobId
  · rw [if_pos h] at hid ⊢
    rw [hpid] at hid
    rw [hatt, eq_of_mem_of_id_eq hids ha hj hid]
  · rw [if_neg h] at hid ⊢
    rw [eq_of_mem_of_id_eq hids ha hj hid]

/-! ### A concrete execution used by the witnesses -/

/-- A freshly submitted example job. -/
def jobEx : Job :=
  { id := "job_a", modelId := "m", prompt := "p", status := .uploading,
    createdAt := 0, attempts := 0, storagePath := "downloads" }

/-- The example job's resolved payload. -/
def payloadEx : UnifiedPayload :=
  { modelId := "m", prompt := "p", start_frame_url := "https://cdn/start.png" }

/-- The example job after `enqueueJob`. -/
def jobExQueued : Job := { jobEx with status := .queued, payload := some payloadEx }

/-- The example job after `startJobExecution`. -/
def jobExRunning : Job := startPatch jobExQueued jobExQueued

theorem step_submit_ex :
    Step ⟨[], []⟩ (.submit jobEx) ⟨[jobEx], []⟩ :=
  Step.submit ⟨[], []⟩ jobEx rfl rfl rfl (by simp)

theorem step_enqueue_ex :
    Step ⟨[jobEx], []⟩ (.enqueue "job_a" payloadEx) ⟨[jobExQueued], []⟩ := by
  have h := Step.enqueue ⟨[jobEx], []⟩ "job_a" payloadEx
  have he : enqueueJob [jobEx] "job_a" payloadEx = [jobExQueued] := by
    simp [enqueueJob, jobEx, jobExQueued, payloadEx]
  rw [he] at h
  exact h

theorem step_tick_ex :
    Step ⟨[jobExQueued], []⟩ (.tickStart "job_a") ⟨[jobExRunning], ["job_a"]⟩ := by
  have hsel : schedulerTick ⟨[jobExQueued], []⟩ = some jobExQueued := by decide
  have h := Step.tickStart ⟨[jobExQueued], []⟩ jobExQueued hsel (by decide)
  have hn : notifyJobUpdate [jobExQueued] jobExQueued.id (startPatch jobExQueued)
      = [jobExRunning] := by decide
  rw [hn] at h
  exact h

theorem reach_running_ex : Reachable ⟨[jobExRunning], ["job_a"]⟩ := by
  have r0 : Reachable ⟨[], []⟩ := .init [] (by simp) (by simp)
  have r1 : Reachable ⟨[jobEx], []⟩ := .step _ _ _ r0 step_submit_ex
  have r2 : Reachable ⟨[jobExQueued], []⟩ := .step _ _ _ r1 step_enqueue_ex
  exact .step _ _ _ r2 step_tick_ex

/-! ### Claim C1 -/

/-- Claim C1: in every reachable scheduler state the number of jobs whose
status is `running` is at most `MAX_CONCURRENT_JOBS = 2`; moreover the tick
selects nothing (hence starts nothing) when the running set already holds
`MAX_CONCURRENT_JOBS` or more ids.  (The tick returns at most one job per
invocation by the type of `schedulerTick`.)  Job-id uniqueness, stated by the
spec as a data-model invariant and realized by `createId`, is part of
`Reachable` via the freshness hypothesis on `submit`. -/
theorem running_jobs_bounded (s : SchedState) (h : Reachable s) :
    (s.jobs.filter fun j => j.status == JobStatus.running).length ≤ MAX_CONCURRENT_JOBS ∧
    (MAX_CONCURRENT_JOBS ≤ s.running.length → schedulerTick s = none) := by
  have hinv := sched_inv_reachable h
  constructor
  · exact Nat.le_trans (runningCount_le_running_length hinv) hinv.runningBound
  · intro hge
    simp [schedulerTick, hge]

/-- Witness for C1 at the concrete reachable state with one running job. -/
theorem running_jobs_bounded_witness :
    (List.filter (fun j => j.status == JobStatus.running) [jobExRunning]).length ≤
      MAX_CONCURRENT_JOBS :=
  (running_jobs_bounded ⟨[jobExRunning], ["job_a"]⟩ reach_running_ex).1

/-! ### Claim C7 -/

/-- Claim C7: across every scheduler step, a job's attempt counter is bumped by
exactly one when the step is the execution start of that job (`tickStart`),
and is left unchanged by every other operation; newly submitted jobs carry
attempt counter 0.  `j` is the pre-step job, `j'` the post-step job with the
same id. -/
theorem attempts_increment_spec (s : SchedState) (e : SchedEvent) (s' : SchedState)
    (hstep : Step s e s') (hids : (s.jobs.map Job.id).Nodup)
    (j : Job) (hj : j ∈ s.jobs) (j' : Job) (hj' : j' ∈ s'.jobs) (hid : j'.id = j.id) :
    (∀ jid, e = SchedEvent.tickStart jid →
      (jid = j.id → j'.attempts = j.attempts + 1) ∧
      (jid ≠ j.id → j'.attempts = j.attempts)) ∧
    ((∀ jid, e ≠ SchedEvent.tickStart jid) → j'.attempts = j.attempts) ∧
    (∀ job0, e = SchedEvent.submit job0 → job0.attempts = 0) := by
  cases hstep with
  | submit job0 hstatus hatt hpay hfresh =>
    refine ⟨fun jid heq => (nomatch heq), fun _ => ?_, fun job1 heq => by
      injection heq with h1
      rw [← h1]
      exact hatt⟩
    rcases List.mem_cons.mp hj' with h | h
    · exfalso
      apply hfresh j hj
      rw [← hid, h]
    · rw [eq_of_mem_of_id_eq hids h hj hid]
  | enqueue jobId payload =>
    refine ⟨fun jid heq => (nomatch heq), fun _ => ?_, fun job1 heq => (nomatch heq)⟩
    rw [enqueueJob_eq_notify] at hj'
    refine attempts_notify ?_ ?_ hids hj hj' hid
    all_goals intro a
    all_goals rfl
  | tickStart job hsel hpay =>
    have hfound : s.jobs.find? (fun b => b.status == .queued && !(s.running.contains b.id))
        = some job := by
      by_cases hb : MAX_CONCURRENT_JOBS ≤ s.running.length
      · simp [schedulerTick, hb] at hsel
      · simpa [schedulerTick, hb] using hsel
    have hjobmem : job ∈ s.jobs := List.mem_of_find?_eq_some hfound
    refine ⟨?_, fun hno => absurd rfl (hno job.id), fun job1 heq => (nomatch heq)⟩
    intro jid heq
    injection heq with h1
    subst h1
    rcases mem_notifyJobUpdate hj' with ⟨a, ha, hcond⟩
    subst hcond
    constructor
    · intro hjid
      have hjobj : job = j := eq_of_mem_of_id_eq hids hjobmem hj hjid
      by_cases h : a.id = job.id
      · rw [if_pos h]
        rw [show (startPatch job a).attempts = job.attempts + 1 from rfl, hjobj]
      · exfalso
        rw [if_neg h] at hid
        apply h
        rw [hid, hjid]
    · intro hjid
      by_cases h : a.id = job.id
      · exfalso
        apply hjid
        rw [if_pos h] at hid
        rw [show (startPatch job a).id = a.id from rfl] at hid
        rw [← hid, h]
      · rw [if_neg h] at hid ⊢
        rw [eq_of_mem_of_id_eq hids ha hj hid]
  | finishOk jobId fileName url hrun =>
    refine ⟨fun jid heq => (nomatch heq), fun _ => ?_, fun job1 heq => (nomatch heq)⟩
    refine attempts_notify ?_ ?_ hids hj hj' hid
    all_goals intro a
    all_goals rfl
  | finishErr jobId msg hrun =>
    refine ⟨fun jid heq => (nomatch heq), fun _ => ?_, fun job1 heq => (nomatch heq)⟩
    refine attempts_notify ?_ ?_ hids hj hj' hid
    all_goals intro a
    all_goals rfl
  | release jobId hdone =>
    refine ⟨fun jid heq => (nomatch heq), fun _ => ?_, fun job1 heq => (nomatch heq)⟩
    rw [eq_of_mem_of_id_eq hids hj' hj hid]
  | retry job hmem hstatus hpay =>
    rcases Option.isSome_iff_exists.mp hpay with ⟨p, hp⟩
    have hhr : handleRetry s.jobs job =
        notifyJobUpdate s.jobs job.id (fun b => { b with status := .queued, error := none }) := by
      simp [handleRetry, hp]
    refine ⟨fun jid heq => (nomatch heq), fun _ => ?_, fun job1 heq => (nomatch heq)⟩
    rw [hhr] at hj'
    refine attempts_notify ?_ ?_ hids hj hj' hid
    all_goals intro a
    all_goals rfl
  | persistOk jobId fileName =>
    refine ⟨fun jid heq => (nomatch heq), fun _ => ?_, fun job1 heq => (nomatch heq)⟩
    refine attempts_notify ?_ ?_ hids hj hj' hid
    all_goals intro a
    all_goals rfl
  | persistErr jobId fileName msg =>
    refine ⟨fun jid heq => (nomatch heq), fun _ => ?_, fun job1 heq => (nomatch heq)⟩
    refine attempts_notify ?_ ?_ hids hj hj' hid
    all_goals intro a
    all_goals rfl

/-- Witness for C7: the concrete `tickStart` step bumps the example job's
attempt counter from 0 to 1. -/
theorem attempts_increment_spec_witness : jobExRunning.attempts = jobExQueued.attempts + 1 :=
  ((attempts_increment_spec ⟨[jobExQueued], []⟩ (.tickStart "job_a")
      ⟨[jobExRunning], ["job_a"]⟩ step_tick_ex (by decide)
      jobExQueued (by simp) jobExRunning (by simp) (by decide)).1
    "job_a" rfl).1 (by decide)

/-! ### Claim C2 -/

/-- Claim C2: `handleRetry` is a no-op for a job without a payload; for a job
with a payload it resets the job's status to `queued` and clears the error
message while touching nothing else — in particular every job's attempt
counter is unchanged.  The last conjunct states the validity precondition: a
`retry` step only ever fires for a job that is in `error` status with a
present payload (the retry button renders only under that condition,
page.tsx line 1331). -/
theorem handleRetry_spec (jobs : List Job) (job : Job) :
    (job.payload = none → handleRetry jobs job = jobs) ∧
    (∀ p, job.payload = some p →
      handleRetry jobs job =
        jobs.map fun j =>
          if j.id = job.id then { j with status := JobStatus.queued, error := none } else j) ∧
    ((handleRetry jobs job).map Job.attempts = jobs.map Job.attempts) ∧
    (∀ s s' : SchedState, ∀ jid, Step s (.retry jid) s' →
      ∃ j ∈ s.jobs, j.id = jid ∧ j.status = JobStatus.error ∧ j.payload.isSome ∧
        s' = ⟨handleRetry s.jobs j, s.running⟩) := by
  refine ⟨fun h => by simp [handleRetry, h], fun p hp => by
      simp [handleRetry, hp, notifyJobUpdate], ?_, ?_⟩
  · cases hp : job.payload with
    | none => simp [handleRetry, hp]
    | some p =>
      simp only [handleRetry, hp, notifyJobUpdate, List.map_map]
      apply List.map_congr_left
      intro j _
      by_cases h : j.id = job.id <;> simp [h]
  · intro s s' jid hstep
    cases hstep with
    | retry job2 hmem hstatus hpay =>
      exact ⟨job2, hmem, rfl, hstatus, hpay, rfl⟩

/-- An example job that failed with a retained payload. -/
def jobErrEx : Job :=
  { jobEx with status := .error, payload := some payloadEx, error := some "boom", attempts := 1 }

/-- Witness for C2: retrying the concrete failed job re-queues it and clears
the error while keeping the attempt counter. -/
theorem handleRetry_spec_witness :
    handleRetry [jobErrEx] jobErrEx =
      [{ jobErrEx with status := JobStatus.queued, error := none }] := by
  have h := (handleRetry_spec [jobErrEx] jobErrEx).2.1 payloadEx rfl
  rw [h]
  decide

/-! ### Claim C6 -/

/-- Claim C6: when the asynchronous persistence of an artifact fails,
`persistVideoAsset` leaves every job's status and provider `videoUrl` exactly
as they were (a successful job stays `success`) and records the failure on the
affected job: `saveError` is set to the message, `saving` and `saved` are
cleared to `false`. -/
theorem persist_failure_keeps_success (jobs : List Job) (jobId fileName msg : String) :
    ((persistVideoAsset jobs jobId fileName (.error msg)).map Job.status = jobs.map Job.status) ∧
    ((persistVideoAsset jobs jobId fileName (.error msg)).map Job.videoUrl =
      jobs.map Job.videoUrl) ∧
    (∀ j' ∈ persistVideoAsset jobs jobId fileName (.error msg), j'.id = jobId →
      j'.saveError = some msg ∧ j'.saving = some false ∧ j'.saved = some false) := by
  refine ⟨?_, ?_, ?_⟩
  · simp only [persistVideoAsset, notifyJobUpdate, List.map_map]
    apply List.map_congr_left
    intro j _
    by_cases h : j.id = jobId <;> simp [h]
  · simp only [persistVideoAsset, notifyJobUpdate, List.map_map]
    apply List.map_congr_left
    intro j _
    by_cases h : j.id = jobId <;> simp [h]
  · intro j' hj' hid
    rcases mem_notifyJobUpdate hj' with ⟨a, ha, hcond⟩
    subst hcond
    by_cases h : a.id = jobId
    · rw [if_pos h]
      exact ⟨rfl, rfl, rfl⟩
    · exfalso
      rw [if_neg h] at hid
      exact h hid

/-- An example job that succeeded at the provider. -/
def jobSuccessEx : Job :=
  { jobEx with
    status := .success
    attempts := 1
    videoUrl := some "https://cdn/video.mp4"
    localKey := some "f.mp4"
    saving := some true
    saved := some false }

/-- Witness for C6: on the concrete failed persistence the job keeps status
`success` and its save-error flag carries the message. -/
theorem persist_failure_keeps_success_witness :
    (persistVideoAsset [jobSuccessEx] "job_a" "f.mp4" (.error "disk full")).map Job.status =
      [JobStatus.success] ∧
    ({ jobSuccessEx with
        saving := some false
        saved := some false
        saveError := some "disk full" } : Job).saveError = some "disk full" := by
  constructor
  · rw [(persist_failure_keeps_success [jobSuccessEx] "job_a" "f.mp4" "disk full").1]
    decide
  · exact ((persist_failure_keeps_success [jobSuccessEx] "job_a" "f.mp4" "disk full").2.2
      _ (by decide) (by decide)).1

/-! ### Claim C4 -/

/-- The records held by a persistence result (`none` = index removed). -/
def persistedRecords (r : Option (List StoredJobRecord)) : List StoredJobRecord :=
  r.getD []

/-- Claim C4: the persisted index written by `persistStoredJobs` contains
exactly the records of the jobs that are in terminal `success` status and
carry both a truthy durable key and a truthy local URL (JS truthiness: a
present, non-empty string).  In particular no `uploading`, `queued`,
`running` or `error` job is ever written: every persisted record stems from a
`success` job. -/
theorem persistStoredJobs_spec (jobs : List Job) (r : StoredJobRecord) :
    r ∈ persistedRecords (persistStoredJobs jobs) ↔
      ∃ j ∈ jobs, j.status = JobStatus.success ∧
        (∃ k, j.localKey = some k ∧ k ≠ "") ∧
        (∃ u, j.localUrl = some u ∧ u ≠ "") ∧
        r = toStoredRecord j := by
  have hpred : ∀ j : Job,
      ((j.status == JobStatus.success && jsTruthyStr j.localKey && jsTruthyStr j.localUrl) = true)
        ↔ (j.status = JobStatus.success ∧
            (∃ k, j.localKey = some k ∧ k ≠ "") ∧
            (∃ u, j.localUrl = some u ∧ u ≠ "")) := by
    intro j
    cases hk : j.localKey <;> cases hu : j.localUrl <;>
      simp [jsTruthyStr, hk, hu, and_assoc]
  constructor
  · intro hr
    unfold persistStoredJobs at hr
    by_cases hempty :
        (jobs.filter fun job =>
          job.status == JobStatus.success && jsTruthyStr job.localKey &&
            jsTruthyStr job.localUrl).isEmpty
    · simp [persistedRecords, hempty] at hr
    · simp only [persistedRecords, hempty, if_neg, Bool.false_eq_true,
        not_false_eq_true, Option.getD_some] at hr
      rcases List.mem_map.mp hr with ⟨j, hj, hrec⟩
      have hsplit := List.mem_filter.mp hj
      have hp := (hpred j).mp hsplit.2
      exact ⟨j, hsplit.1, hp.1, hp.2.1, hp.2.2, hrec.symm⟩
  · intro ⟨j, hj, hsucc, hk, hu, hrec⟩
    have hfil : j ∈ jobs.filter fun job =>
        job.status == JobStatus.success && jsTruthyStr job.localKey &&
          jsTruthyStr job.localUrl :=
      List.mem_filter.mpr ⟨hj, (hpred j).mpr ⟨hsucc, hk, hu⟩⟩
    have hne : ¬ (jobs.filter fun job =>
        job.status == JobStatus.success && jsTruthyStr job.localKey &&
          jsTruthyStr job.localUrl).isEmpty := by
      intro hemp
      rw [List.isEmpty_iff] at hemp
      rw [hemp] at hfil
      cases hfil
    unfold persistStoredJobs
    simp only [persistedRecords, hne, if_neg, Bool.false_eq_true, not_false_eq_true,
      Option.getD_some]
    exact List.mem_map.mpr ⟨j, hfil, hrec.symm⟩

/-- Witness for C4: with one completed and one queued job, exactly the
completed job's record is persisted. -/
theorem persistStoredJobs_spec_witness :
    toStoredRecord { jobSuccessEx with localUrl := some "/assets/f.mp4" } ∈
      persistedRecords (persistStoredJobs
        [{ jobSuccessEx with localUrl := some "/assets/f.mp4" }, jobExQueued]) :=
  (persistStoredJobs_spec _ _).mpr
    ⟨{ jobSuccessEx with localUrl := some "/assets/f.mp4" }, by simp,
      by decide, ⟨"f.mp4", by decide, by decide⟩,
      ⟨"/assets/f.mp4", by decide, by decide⟩, rfl⟩

/-! ### Claims C3 and C10: rehydration -/

/-- The spec-side admission test: the record carries both a durable key and a
resolvable access URL — a present, non-empty string each (the JS guard
`!localUrl || !localKey` treats the empty string as absent). -/
def hasDurableFields : JsonValue → Bool
  | .obj fields =>
    jsTruthyStr (getStringField fields "localKey") && jsTruthyStr (getStringField fields "localUrl")
  | _ => false

theorem storedEntryToJob_isSome (genId : String) (now : Nat) (e : JsonValue) :
    (storedEntryToJob genId now e).isSome = hasDurableFields e := by
  cases e with
  | obj fields =>
    cases hu : getStringField fields "localUrl" with
    | none => simp [storedEntryToJob, hasDurableFields, jsTruthyStr, hu]
    | some u =>
      cases hk : getStringField fields "localKey" with
      | none => simp [storedEntryToJob, hasDurableFields, jsTruthyStr, hu, hk]
      | some k =>
        by_cases hue : u = "" <;> by_cases hke : k = "" <;>
          simp [storedEntryToJob, hasDurableFields, jsTruthyStr, hu, hk, hue, hke]
  | null => rfl
  | bool b => rfl
  | num n => rfl
  | str s => rfl
  | arr elems => rfl

theorem storedEntryToJob_fields {genId : String} {now : Nat} {e : JsonValue} {j : Job}
    (h : storedEntryToJob genId now e = some j) :
    j.status = JobStatus.success ∧ j.attempts = 1 ∧ j.payload = none ∧
    j.saving = some false ∧ j.saved = some true ∧
    ∃ fields, e = JsonValue.obj fields ∧ ∃ k u,
      getStringField fields "localKey" = some k ∧
      getStringField fields "localUrl" = some u ∧
      k ≠ "" ∧ u ≠ "" ∧
      j.localKey = some k ∧ j.localUrl = some u := by
  cases e with
  | obj fields =>
    cases hu : getStringField fields "localUrl" with
    | none => rw [storedEntryToJob, hu] at h; cases h
    | some u =>
      cases hk : getStringField fields "localKey" with
      | none => rw [storedEntryToJob, hu, hk] at h; cases h
      | some k =>
        simp only [storedEntryToJob, hu, hk] at h
        by_cases hcond : u = "" ∨ k = ""
        · rw [if_pos hcond] at h
          cases h
        · rw [if_neg hcond] at h
          injection h with hj
          rw [not_or] at hcond
          refine ⟨?_, ?_, ?_, ?_, ?_, fields, rfl, k, u, hk, hu, hcond.2, hcond.1, ?_, ?_⟩ <;>
            rw [← hj]
  | null => cases h
  | bool b => cases h
  | num n => cases h
  | str s => cases h
  | arr elems => cases h

theorem mem_loadStoredEntries {genId : Nat → String} {now : Nat} :
    ∀ {i : Nat} {entries : List JsonValue} {j : Job},
      j ∈ loadStoredEntries genId now i entries →
      ∃ e ∈ entries, ∃ g, storedEntryToJob g now e = some j := by
  intro i entries
  induction entries generalizing i with
  | nil => intro j hj; cases hj
  | cons e rest ih =>
    intro j hj
    rw [loadStoredEntries] at hj
    cases hcase : storedEntryToJob (genId i) now e with
    | some j0 =>
      rw [hcase] at hj
      rcases List.mem_cons.mp hj with h | h
      · exact ⟨e, List.mem_cons_self _ _, genId i, by rw [hcase, h]⟩
      · rcases ih h with ⟨e1, he1, g, hg⟩
        exact ⟨e1, List.mem_cons_of_mem _ he1, g, hg⟩
    | none =>
      rw [hcase] at hj
      rcases ih hj with ⟨e1, he1, g, hg⟩
      exact ⟨e1, List.mem_cons_of_mem _ he1, g, hg⟩

theorem length_loadStoredEntries (genId : Nat → String) (now : Nat) :
    ∀ (entries : List JsonValue) (i : Nat),
      (loadStoredEntries genId now i entries).length =
        (entries.filter hasDurableFields).length := by
  intro entries
  induction entries with
  | nil => intro i; rfl
  | cons e rest ih =>
    intro i
    rw [loadStoredEntries]
    cases hcase : storedEntryToJob (genId i) now e with
    | some j0 =>
      have hd : hasDurableFields e = true := by
        rw [← storedEntryToJob_isSome (genId i) now e, hcase]
        rfl
      simp [List.filter_cons, hd, ih (i + 1)]
    | none =>
      have hd : hasDurableFields e = false := by
        rw [← storedEntryToJob_isSome (genId i) now e, hcase]
        rfl
      simp [List.filter_cons, hd, ih (i + 1)]

/-- Claim C3: `loadStoredJobs` is total (it returns a, possibly empty, list on
every input instead of throwing); every input that is not a parsed JSON array
— a missing slot, a `JSON.parse` failure, or a non-array value — yields `[]`;
every job it produces stems from an entry carrying both a durable key
(`localKey`) and an access URL (`localUrl`), both strings and non-empty (the
JS guard `!localUrl || !localKey` also drops empty strings); and the number of
admitted jobs is exactly the number of such truthy entries, so all other
records are dropped. -/
theorem loadStoredJobs_admission (genId : Nat → String) (now : Nat) :
    (∀ raw : Option JsonValue,
      (∀ entries, raw ≠ some (.arr entries)) → loadStoredJobs genId now raw = []) ∧
    (∀ raw j, j ∈ loadStoredJobs genId now raw →
      ∃ entries, raw = some (.arr entries) ∧ ∃ e ∈ entries, ∃ fields,
        e = JsonValue.obj fields ∧ ∃ k u,
          getStringField fields "localKey" = some k ∧
          getStringField fields "localUrl" = some u ∧
          k ≠ "" ∧ u ≠ "" ∧
          j.localKey = some k ∧ j.localUrl = some u) ∧
    (∀ entries, (loadStoredJobs genId now (some (.arr entries))).length =
      (entries.filter hasDurableFields).length) := by
  refine ⟨?_, ?_, ?_⟩
  · intro raw h
    cases raw with
    | none => rfl
    | some v =>
      cases v with
      | arr entries => exact absurd rfl (h entries)
      | null => rfl
      | bool b => rfl
      | num n => rfl
      | str s => rfl
      | obj fields => rfl
  · intro raw j hj
    cases raw with
    | none => cases hj
    | some v =>
      cases v with
      | arr entries =>
        rcases mem_loadStoredEntries hj with ⟨e, he, g, hg⟩
        rcases storedEntryToJob_fields hg with
          ⟨_, _, _, _, _, fields, hfields, k, u, hk, hu, hkne, hune, hjk, hju⟩
        exact ⟨entries, rfl, e, he, fields, hfields, k, u, hk, hu, hkne, hune, hjk, hju⟩
      | null => cases hj
      | bool b => cases hj
      | num n => cases hj
      | str s => cases hj
      | obj fields => cases hj
  · intro entries
    exact length_loadStoredEntries genId now entries 0

/-- A shared fallback-id generator for the rehydration examples. -/
def genIdEx : Nat → String := fun _ => "job_gen"

/-- Witness for C3: a non-array persisted value is rejected outright. -/
theorem loadStoredJobs_admission_witness :
    loadStoredJobs genIdEx 0 (some (.str "corrupted")) = [] :=
  (loadStoredJobs_admission genIdEx 0).1 (some (.str "corrupted"))
    (fun entries h => by cases h)

/-- Claim C10: every rehydrated job comes back as a `success` job with attempt
counter 1, `saved` set, `saving` cleared and no payload; consequently the
scheduler tick can never select it (it only ever returns `queued` jobs) and
`handleRetry` on it is a no-op (it requires a present payload). -/
theorem rehydrated_job_fields (genId : Nat → String) (now : Nat) (raw : Option JsonValue)
    (j : Job) (hj : j ∈ loadStoredJobs genId now raw) :
    j.status = JobStatus.success ∧ j.attempts = 1 ∧ j.payload = none ∧
    j.saved = some true ∧ j.saving = some false ∧
    (∀ jobs, handleRetry jobs j = jobs) ∧
    (∀ s : SchedState, schedulerTick s ≠ some j) := by
  have hcore : j.status = JobStatus.success ∧ j.attempts = 1 ∧ j.payload = none ∧
      j.saving = some false ∧ j.saved = some true := by
    cases raw with
    | none => cases hj
    | some v =>
      cases v with
      | arr entries =>
        rcases mem_loadStoredEntries hj with ⟨e, he, g, hg⟩
        rcases storedEntryToJob_fields hg with ⟨h1, h2, h3, h4, h5, _⟩
        exact ⟨h1, h2, h3, h4, h5⟩
      | null => cases hj
      | bool b => cases hj
      | num n => cases hj
      | str s => cases hj
      | obj fields => cases hj
  refine ⟨hcore.1, hcore.2.1, hcore.2.2.1, hcore.2.2.2.2, hcore.2.2.2.1, ?_, ?_⟩
  · intro jobs
    rw [handleRetry, hcore.2.2.1]
  · intro s hsel
    by_cases hb : MAX_CONCURRENT_JOBS ≤ s.running.length
    · simp [schedulerTick, hb] at hsel
    · rw [schedulerTick, if_neg hb] at hsel
      have hprop := List.find?_some hsel
      have : j.status = JobStatus.queued := by
        have := ((Bool.and_eq_true _ _).mp hprop).1
        simpa using this
      rw [hcore.1] at this
      cases this

/-- A concrete valid persisted record. -/
def rawHistoryEx : JsonValue :=
  .arr [.obj [("localKey", .str "clip.mp4"), ("localUrl", .str "/assets/clip.mp4")]]

/-- The job `loadStoredJobs` rebuilds from `rawHistoryEx`. -/
def jobRehydratedEx : Job :=
  { id := "job_gen"
    modelId := DEFAULT_MODEL_ID
    prompt := ""
    status := .success
    createdAt := 0
    attempts := 1
    payload := none
    videoUrl := some "/assets/clip.mp4"
    error := none
    preview := none
    events := []
    storagePath := "downloads"
    localKey := some "clip.mp4"
    localUrl := some "/assets/clip.mp4"
    saving := some false
    saved := some true
    saveError := none }

/-- Witness for C10: the concretely rehydrated job is a payload-less success
record. -/
theorem rehydrated_job_fields_witness :
    jobRehydratedEx.status = JobStatus.success ∧ jobRehydratedEx.payload = none := by
  have h := rehydrated_job_fields genIdEx 0 (some rawHistoryEx) jobRehydratedEx (by decide)
  exact ⟨h.1, h.2.2.1⟩

/-! ### Claim C5 -/

/-- Claim C5: the prepare pipeline is sequential and atomic with respect to
enqueueing.  A failed start upload propagates its message; a start upload
without a usable URL aborts with "Unable to upload start frame."; when the end
upload is attempted (end file supplied and end-frame capability enabled) its
failure aborts with the corresponding message and nothing is enqueued.  A
payload is produced exactly when the start upload — and the end upload, if
attempted — resolves to a usable URL, and then that payload carries the
uploaded URLs; `runPrepare` enqueues exactly in that case, and in the failure
case marks the job `error` with the message while leaving every payload
untouched. -/
theorem prepare_pipeline_atomic (model : ModelSpec) (base : UnifiedPayload)
    (su : Except String UploadResult) (eu : Option (Except String UploadResult))
    (jobs : List Job) (jobId : String) :
    (∀ msg, su = .error msg → prepareJobPayload model base su eu = .error msg) ∧
    (∀ r, su = .ok r → uploadUrlMissing (extractUploadUrl r) = true →
      prepareJobPayload model base su eu = .error "Unable to upload start frame.") ∧
    (∀ r o, su = .ok r → uploadUrlMissing (extractUploadUrl r) = false →
      eu = some o → isSupportEnabled model.supports.endFrame = true →
      (∀ msg, o = .error msg → prepareJobPayload model base su eu = .error msg) ∧
      (∀ er, o = .ok er → uploadUrlMissing (extractUploadUrl er) = true →
        prepareJobPayload model base su eu = .error "Unable to upload end frame.")) ∧
    ((∃ p, prepareJobPayload model base su eu = .ok p) ↔
      ((∃ r, su = .ok r ∧ uploadUrlMissing (extractUploadUrl r) = false) ∧
        (endFrameAttempted model eu = true →
          ∃ er, eu = some (.ok er) ∧ uploadUrlMissing (extractUploadUrl er) = false))) ∧
    (∀ p, prepareJobPayload model base su eu = .ok p →
      (∃ r sUrl, su = .ok r ∧ extractUploadUrl r = some sUrl ∧ p.start_frame_url = sUrl) ∧
      (endFrameAttempted model eu = true →
        ∃ er eUrl, eu = some (.ok er) ∧ extractUploadUrl er = some eUrl ∧
          p.end_frame_url = some eUrl) ∧
      (endFrameAttempted model eu = false → p.end_frame_url = base.end_frame_url)) ∧
    (∀ msg, prepareJobPayload model base su eu = .error msg →
      runPrepare jobs jobId model base su eu = notifyJobUpdate jobs jobId (errorPatch msg) ∧
      (runPrepare jobs jobId model base su eu).map Job.payload = jobs.map Job.payload) ∧
    (∀ p, prepareJobPayload model base su eu = .ok p →
      runPrepare jobs jobId model base su eu = enqueueJob jobs jobId p) := by
  refine ⟨?_, ?_, ?_, ?_, ?_, ?_, ?_⟩
  · intro msg h
    rw [h]
    rfl
  · intro r h hmiss
    subst h
    cases hx : extractUploadUrl r with
    | none => simp [prepareJobPayload, hx]
    | some s =>
      rw [hx] at hmiss
      simp only [uploadUrlMissing] at hmiss
      simp [prepareJobPayload, hx, hmiss]
  · intro r o h hok heu hcap
    subst h
    subst heu
    cases hx : extractUploadUrl r with
    | none => rw [hx] at hok; cases hok
    | some s =>
      rw [hx] at hok
      simp only [uploadUrlMissing] at hok
      constructor
      · intro msg ho
        subst ho
        simp [prepareJobPayload, hx, hok, hcap]
      · intro er ho hmiss
        subst ho
        cases hy : extractUploadUrl er with
        | none => simp [prepareJobPayload, hx, hok, hcap, hy]
        | some t =>
          rw [hy] at hmiss
          simp only [uploadUrlMissing] at hmiss
          simp [prepareJobPayload, hx, hok, hcap, hy, hmiss]
  · cases su with
    | error msg => simp [prepareJobPayload]
    | ok r =>
      cases hx : extractUploadUrl r with
      | none => simp [prepareJobPayload, hx, uploadUrlMissing]
      | some s =>
        by_cases hse : s.isEmpty
        · simp [prepareJobPayload, hx, hse, uploadUrlMissing]
        · cases eu with
          | none =>
            simp [prepareJobPayload, hx, hse, uploadUrlMissing, endFrameAttempted]
          | some o =>
            cases hcap : isSupportEnabled model.supports.endFrame with
            | false =>
              simp [prepareJobPayload, hx, hse, uploadUrlMissing, endFrameAttempted, hcap]
            | true =>
              cases o with
              | error msg =>
                simp [prepareJobPayload, hx, hse, uploadUrlMissing, endFrameAttempted, hcap]
              | ok er =>
                cases hy : extractUploadUrl er with
                | none =>
                  simp [prepareJobPayload, hx, hse, uploadUrlMissing, endFrameAttempted,
                    hcap, hy]
                | some t =>
                  by_cases ht : t.isEmpty <;>
                    simp [prepareJobPayload, hx, hse, uploadUrlMissing, endFrameAttempted,
                      hcap, hy, ht]
  · intro p hp
    cases su with
    | error msg => cases hp
    | ok r =>
      cases hx : extractUploadUrl r with
      | none => rw [prepareJobPayload, hx] at hp; cases hp
      | some s =>
        by_cases hse : s.isEmpty
        · rw [prepareJobPayload, hx] at hp
          simp only [hse, if_pos] at hp
          cases hp
        · cases eu with
          | none =>
            rw [prepareJobPayload, hx] at hp
            simp only [hse, Bool.false_eq_true, if_neg, if_false] at hp
            injection hp with hp1
            refine ⟨⟨r, s, rfl, hx, by rw [← hp1]⟩, ?_, ?_⟩
            · intro hatt
              simp [endFrameAttempted] at hatt
            · intro _
              rw [← hp1]
          | some o =>
            cases hcap : isSupportEnabled model.supports.endFrame with
            | false =>
              rw [prepareJobPayload, hx] at hp
              rw [hcap] at hp
              simp only [hse, Bool.false_eq_true, if_neg, if_false] at hp
              injection hp with hp1
              refine ⟨⟨r, s, rfl, hx, by rw [← hp1]⟩, ?_, ?_⟩
              · intro hatt
                simp [endFrameAttempted, hcap] at hatt
              · intro _
                rw [← hp1]
            | true =>
              cases o with
              | error msg =>
                rw [prepareJobPayload, hx] at hp
                rw [hcap] at hp
                simp only [hse, Bool.false_eq_true, if_neg, if_false] at hp
                cases hp
              | ok er =>
                cases hy : extractUploadUrl er with
                | none =>
                  rw [prepareJobPayload, hx] at hp
                  rw [hcap] at hp
                  simp only [hse, Bool.false_eq_true, if_neg, if_false, hy] at hp
                  cases hp
                | some t =>
                  by_cases ht : t.isEmpty
                  · rw [prepareJobPayload, hx] at hp
                    rw [hcap] at hp
                    simp only [hse, Bool.false_eq_true, if_neg, if_false, hy, ht,
                      if_pos] at hp
                    cases hp
                  · rw [prepareJobPayload, hx] at hp
                    rw [hcap] at hp
                    simp only [hse, Bool.false_eq_true, if_neg, if_false, hy, ht] at hp
                    injection hp with hp1
                    refine ⟨⟨r, s, rfl, hx, by rw [← hp1]⟩, ?_, ?_⟩
                    · intro _
                      exact ⟨er, t, rfl, hy, by rw [← hp1]⟩
                    · intro hatt
                      simp [endFrameAttempted, hcap] at hatt
  · intro msg h
    constructor
    · simp [runPrepare, h]
    · simp only [runPrepare, h, notifyJobUpdate, errorPatch, List.map_map]
      apply List.map_congr_left
      intro j _
      by_cases hj : j.id = jobId <;> simp [hj]
  · intro p h
    simp [runPrepare, h]

/-- A model with the end-frame capability enabled, for the C5 witness. -/
def modelEndEx : ModelSpec :=
  { id := "m", supports := { endFrame := .flag true, audio := .undef } }

/-- Witness for C5: with both uploads resolving to usable URLs, the concrete
prepare run enqueues the job with both frame URLs attached. -/
theorem prepare_pipeline_atomic_witness :
    runPrepare [jobEx] "job_a" modelEndEx payloadEx
        (.ok (.str "https://cdn/start.png")) (some (.ok (.str "https://cdn/end.png"))) =
      enqueueJob [jobEx] "job_a"
        { payloadEx with
          start_frame_url := "https://cdn/start.png"
          end_frame_url := some "https://cdn/end.png" } :=
  (prepare_pipeline_atomic modelEndEx payloadEx
      (.ok (.str "https://cdn/start.png")) (some (.ok (.str "https://cdn/end.png")))
      [jobEx] "job_a").2.2.2.2.2.2 _ rfl

/-! ### Claim C8 -/

theorem jsGcd_nonneg_eq_aux (n : Nat) :
    ∀ (a b : Int), b.natAbs = n → 0 ≤ a → 0 ≤ b → jsGcd a b = (Int.gcd a b : Int) := by
  induction n using Nat.strong_induction_on with
  | _ n ih =>
    intro a b hn ha hb
    by_cases h0 : b = 0
    · subst h0
      rw [jsGcd.eq_def, dif_pos rfl]
      rw [show Int.gcd a 0 = a.natAbs from by simp [Int.gcd]]
      exact (Int.natAbs_of_nonneg ha).symm
    · rw [jsGcd.eq_def, dif_neg h0]
      have htm : 0 ≤ Int.tmod a b := Int.tmod_nonneg b ha
      have hlt : (Int.tmod a b).natAbs < n := hn ▸ natAbs_tmod_lt a b h0
      rw [ih (Int.tmod a b).natAbs hlt b (Int.tmod a b) rfl hb htm]
      congr 1
      rcases Int.eq_ofNat_of_zero_le ha with ⟨m, rfl⟩
      rcases Int.eq_ofNat_of_zero_le hb with ⟨k, rfl⟩
      show Nat.gcd k (Int.tmod (m : Int) (k : Int)).natAbs = Nat.gcd m k
      rw [show (Int.tmod (m : Int) (k : Int)).natAbs = m % k from rfl]
      calc Nat.gcd k (m % k) = Nat.gcd (m % k) k := Nat.gcd_comm _ _
        _ = Nat.gcd k m := (Nat.gcd_rec k m).symm
        _ = Nat.gcd m k := Nat.gcd_comm _ _

/-- The JS Euclid in `resolveAspectRatio` computes the mathematical gcd on
nonnegative inputs. -/
theorem jsGcd_nonneg_eq (a b : Int) (ha : 0 ≤ a) (hb : 0 ≤ b) :
    jsGcd a b = (Int.gcd a b : Int) :=
  jsGcd_nonneg_eq_aux b.natAbs a b rfl ha hb

/-- Claim C8 (amended to positive dimensions, see the counterexample for
negative ones): `resolveAspectRatio` is total; each named preset maps to its
fixed ratio; an unrecognized preset yields `none`; a zero dimension yields
`none`; and a pair of positive dimensions maps to the fraction obtained by
dividing both by their greatest common divisor — which is in lowest terms. -/
theorem resolveAspectRatio_spec :
    resolveAspectRatio none = none ∧
    resolveAspectRatio (some (.preset "square_hd")) = some "1:1" ∧
    resolveAspectRatio (some (.preset "square")) = some "1:1" ∧
    resolveAspectRatio (some (.preset "portrait_4_3")) = some "3:4" ∧
    resolveAspectRatio (some (.preset "portrait_16_9")) = some "9:16" ∧
    resolveAspectRatio (some (.preset "landscape_4_3")) = some "4:3" ∧
    resolveAspectRatio (some (.preset "landscape_16_9")) = some "16:9" ∧
    (∀ name : String,
      name ∉ (["square_hd", "square", "portrait_4_3", "portrait_16_9",
        "landscape_4_3", "landscape_16_9"] : List String) →
      resolveAspectRatio (some (.preset name)) = none) ∧
    (∀ w h : Int, w = 0 ∨ h = 0 → resolveAspectRatio (some (.dims w h)) = none) ∧
    (∀ w h : Nat, 0 < w → 0 < h →
      resolveAspectRatio (some (.dims (w : Int) (h : Int))) =
        some (toString (w / Nat.gcd w h) ++ ":" ++ toString (h / Nat.gcd w h)) ∧
      Nat.Coprime (w / Nat.gcd w h) (h / Nat.gcd w h)) := by
  refine ⟨rfl, by decide, by decide, by decide, by decide, by decide, by decide, ?_, ?_, ?_⟩
  · intro name h
    simp only [List.mem_cons, List.not_mem_nil, or_false, not_or] at h
    obtain ⟨h1, h2, h3, h4, h5, h6⟩ := h
    simp [resolveAspectRatio, h1, h2, h3, h4, h5, h6]
  · intro w h hz
    simp only [resolveAspectRatio]
    rw [if_pos hz]
  · intro w h hw hh
    have hgcd : jsGcd (w : Int) (h : Int) = (Nat.gcd w h : Int) := by
      rw [jsGcd_nonneg_eq _ _ (by positivity) (by positivity)]
      congr 1
    have hne : ¬((w : Int) = 0 ∨ (h : Int) = 0) := by
      rintro (h0 | h0) <;> omega
    constructor
    · simp only [resolveAspectRatio]
      rw [if_neg hne]
      rw [hgcd]
      rw [show (w : Int).tdiv ((Nat.gcd w h : Nat) : Int) = ((w / Nat.gcd w h : Nat) : Int)
        from rfl]
      rw [show (h : Int).tdiv ((Nat.gcd w h : Nat) : Int) = ((h / Nat.gcd w h : Nat) : Int)
        from rfl]
      rw [show toString ((w / Nat.gcd w h : Nat) : Int) = toString (w / Nat.gcd w h) from rfl]
      rw [show toString ((h / Nat.gcd w h : Nat) : Int) = toString (h / Nat.gcd w h) from rfl]
    · exact Nat.coprime_div_gcd_div_gcd (Nat.gcd_pos_of_pos_left _ hw)

/-- Witness for C8: explicit 1920 × 1080 dimensions reduce to the coprime pair
rendered as "16:9". -/
theorem resolveAspectRatio_spec_witness :
    resolveAspectRatio (some (.dims 1920 1080)) =
      some (toString (1920 / Nat.gcd 1920 1080) ++ ":" ++ toString (1080 / Nat.gcd 1920 1080)) ∧
    Nat.Coprime (1920 / Nat.gcd 1920 1080) (1080 / Nat.gcd 1920 1080) :=
  resolveAspectRatio_spec.2.2.2.2.2.2.2.2.2 1920 1080 (by decide) (by decide)

/-- C8 counterexample: the claim promises division by the greatest common
divisor for every pair of nonzero dimensions, but on `width 4, height -2` the
recursive JS gcd returns `-2`, so the code renders "-2:1" while dividing by
the greatest common divisor `gcd 4 (-2) = 2` would render "2:-1". -/
theorem resolveAspectRatio_negative_dims_counterexample :
    resolveAspectRatio (some (.dims 4 (-2))) = some "-2:1" ∧
    Int.gcd 4 (-2) = 2 ∧
    toString (Int.tdiv 4 2) ++ ":" ++ toString (Int.tdiv (-2) 2) = "2:-1" ∧
    ("-2:1" : String) ≠ "2:-1" := by
  refine ⟨?_, by decide, by decide, by decide⟩
  have h2 : jsGcd 4 (-2) = -2 := by
    rw [jsGcd.eq_def, dif_neg (by decide : ¬((-2 : Int) = 0))]
    rw [show Int.tmod 4 (-2) = 0 from by decide]
    rw [jsGcd.eq_def, dif_pos rfl]
  simp only [resolveAspectRatio]
  rw [if_neg (by decide), h2]
  decide

/-! ### Claim C9 -/

theorem digitChar_inj {d1 d2 : Nat} (h1 : d1 < 10) (h2 : d2 < 10)
    (h : digitChar d1 = digitChar d2) : d1 = d2 := by
  interval_cases d1 <;> interval_cases d2 <;> revert h <;> decide

theorem map_digitChar_inj : ∀ {l1 l2 : List Nat},
    (∀ d ∈ l1, d < 10) → (∀ d ∈ l2, d < 10) →
    l1.map digitChar = l2.map digitChar → l1 = l2 := by
  intro l1
  induction l1 with
  | nil =>
    intro l2 _ _ h
    cases l2 with
    | nil => rfl
    | cons d2 t2 => simp at h
  | cons d t ih =>
    intro l2 hb1 hb2 h
    cases l2 with
    | nil => simp at h
    | cons d2 t2 =>
      simp only [List.map_cons, List.cons.injEq] at h
      have hd := digitChar_inj (hb1 d (by simp)) (hb2 d2 (by simp)) h.1
      rw [hd, ih (fun x hx => hb1 x (by simp [hx])) (fun x hx => hb2 x (by simp [hx])) h.2]

/-- The modelled compact timestamp distinguishes milliseconds. -/
theorem formatCompactTimestamp_injective {t1 t2 : Nat}
    (h : formatCompactTimestamp t1 = formatCompactTimestamp t2) : t1 = t2 := by
  have hdata : ((Nat.digits 10 t1).reverse).map digitChar =
      ((Nat.digits 10 t2).reverse).map digitChar := congrArg String.data h
  have hb1 : ∀ d ∈ (Nat.digits 10 t1).reverse, d < 10 := fun d hd =>
    Nat.digits_lt_base (by norm_num) (List.mem_reverse.mp hd)
  have hb2 : ∀ d ∈ (Nat.digits 10 t2).reverse, d < 10 := fun d hd =>
    Nat.digits_lt_base (by norm_num) (List.mem_reverse.mp hd)
  have hrev := map_digitChar_inj hb1 hb2 hdata
  have hdig : Nat.digits 10 t1 = Nat.digits 10 t2 := List.reverse_injective hrev
  calc t1 = Nat.ofDigits 10 (Nat.digits 10 t1) := (Nat.ofDigits_digits 10 t1).symm
    _ = Nat.ofDigits 10 (Nat.digits 10 t2) := by rw [hdig]
    _ = t2 := Nat.ofDigits_digits 10 t2

/-- Claim C9 (amended): filename construction is deterministic (it is a pure
function of the tuple), and it is collision-resistant in the timestamp: two
tuples agreeing on path hint, model id and job id but carrying different
millisecond timestamps always yield different filenames.  Collision resistance
does **not** hold across arbitrary distinct tuples — sanitization erases
case and punctuation differences, see the counterexample. -/
theorem buildVideoFileName_timestamp_injective (pathHint modelId jobId : String)
    (t1 t2 : Nat) (h : t1 ≠ t2) :
    buildVideoFileName pathHint modelId t1 jobId ≠
      buildVideoFileName pathHint modelId t2 jobId := by
  intro heq
  apply h
  apply formatCompactTimestamp_injective
  have hd := congrArg String.data heq
  simp only [buildVideoFileName, String.data_append, List.append_assoc] at hd
  have h1 := List.append_cancel_left hd
  have h2 := List.append_cancel_left h1
  have h3 := List.append_cancel_left h2
  have h4 := List.append_cancel_left h3
  have h5 := List.append_cancel_right h4
  exact congrArg String.mk h5

/-- Witness for C9: two identical tuples except for the millisecond timestamp
produce different filenames. -/
theorem buildVideoFileName_timestamp_injective_witness :
    buildVideoFileName "downloads" "m" 0 "j1" ≠ buildVideoFileName "downloads" "m" 1 "j1" :=
  buildVideoFileName_timestamp_injective "downloads" "m" "j1" 0 1 (by decide)

/-- C9 counterexample: the tuples differ only in the case of the path hint, so
they are distinct, yet sanitization lower-cases both to the same segment and
the filenames coincide. -/
theorem buildVideoFileName_collision_counterexample :
    (("A", "m", (0 : Nat), "j1") ≠ (("a" : String), ("m" : String), (0 : Nat), ("j1" : String))) ∧
    buildVideoFileName "A" "m" 0 "j1" = buildVideoFileName "a" "m" 0 "j1" :=
  ⟨by decide, rfl⟩

end FreepikClone
